import Mathlib

/-
Verification of the tower-extraction pipeline of Daniel-Starr/pointcloudhookup.

Shallow embedding of `extract_towers` in src/ui/ui/tower_extraction.py (the
variants in src/towers.py and src/beifen/tower_extraction.py share the same
logic for everything modelled here).  Machine floats are modelled as rationals.
External collaborators are oracle parameters of the pipeline:
  * the LAS reader (laspy) is modelled by the `Option (List Pt)` input
    (`none` = the read raised, caught at line 74 of the source);
  * per-chunk DBSCAN (sklearn) is an oracle `List Pt → Option (List ℤ)`
    returning the chunk-local label array, `none` meaning the `fit` call
    raised;
  * the trimesh oriented-bounding-box computation is an oracle
    `List Pt → Option Obb`, `none` meaning it raised;
  * `np.arctan2` composed with `np.degrees` is an oracle `ℚ → ℚ → ℚ`
    (arguments in the source order: y then x).  The source normalizes the
    horizontal direction before calling atan2; since atan2 is invariant under
    scaling by the positive norm, the oracle is applied to the unnormalized
    components, which avoids an irrational square root in the embedding.
Comparisons of a Euclidean norm against a nonnegative threshold are embedded
as the equivalent comparison of the squared norm against the squared
threshold, so that all arithmetic stays in ℚ.
-/

/-- A 3-d point, the row `[las.x, las.y, las.z]` of the source. -/
structure Pt where
  x : ℚ
  y : ℚ
  z : ℚ
deriving DecidableEq, Repr

/-- Componentwise addition, `points + centroid` in the source. -/
def Pt.add (p q : Pt) : Pt := ⟨p.x + q.x, p.y + q.y, p.z + q.z⟩

/-- Componentwise subtraction, `raw_points - centroid` in the source. -/
def Pt.sub (p q : Pt) : Pt := ⟨p.x - q.x, p.y - q.y, p.z - q.z⟩

/-- Squared Euclidean distance; `np.linalg.norm(a - b) ** 2`. -/
def distSq (p q : Pt) : ℚ :=
  (p.x - q.x) ^ 2 + (p.y - q.y) ^ 2 + (p.z - q.z) ^ 2

/-- Embeds `np.mean(raw_points, axis=0)`.  (On an empty cloud numpy yields NaN with a
warning; that value is never consumed because the height filter aborts first,
so the 0 returned here is equally inert.) -/
def centroidOf (pts : List Pt) : Pt :=
  ⟨(pts.map Pt.x).sum / (pts.length : ℚ),
   (pts.map Pt.y).sum / (pts.length : ℚ),
   (pts.map Pt.z).sum / (pts.length : ℚ)⟩

/-- Embeds `np.percentile(z_values, 25)` with the default linear interpolation:
position `(n-1)/4` in the ascending sort, linearly interpolated between the
two neighbouring order statistics. -/
def percentile25 (zs : List ℚ) : ℚ :=
  let s := List.insertionSort (fun a b => a ≤ b) zs
  let pos : ℚ := ((s.length : ℚ) - 1) / 4
  let lo := s.getD (⌊pos⌋).toNat 0
  let hi := s.getD (⌈pos⌉).toNat 0
  lo + (pos - (⌊pos⌋ : ℚ)) * (hi - lo)

/-- Log line of the source at the height-filter fallback
(`⚠️ 过滤后点数太少，尝试降低过滤阈值`). -/
def msgFilterFallback : String := "filtered points too few, lowering threshold"

/-- Height-filter stage, lines 79-93 of src/ui/ui/tower_extraction.py:
`base_height = np.percentile(z_values, 25)`, keep `z > base_height + 3.0`;
if fewer than 1000 points survive, refilter the full cloud with offset 1.0.
On an empty cloud `np.percentile` raises, modelled by the error case.
Returns the retained points, the offset that produced them, and the log
lines emitted by this stage. -/
def heightFilterE (points : List Pt) : Except String (List Pt × ℚ × List String) :=
  if points.isEmpty then Except.error "ValueError percentile of empty array"
  else
    let base := percentile25 (points.map Pt.z)
    let f1 := points.filter (fun p => decide (base + 3 < p.z))
    if f1.length < 1000 then
      Except.ok (points.filter (fun p => decide (base + 1 < p.z)), 1, [msgFilterFallback])
    else
      Except.ok (f1, 3, [])

/-- Fuel-indexed worker for `chunksOf`; the fuel only forces structural
termination and is irrelevant once it is at least the list length. -/
def chunksOfF {α : Type*} : ℕ → ℕ → List α → List (List α)
  | _, _, [] => []
  | 0, _, _ => []
  | fuel + 1, n, x :: xs => (x :: xs).take n :: chunksOfF fuel n (xs.drop (n - 1))

/-- Embeds `[filtered_points[i:i + chunk_size] for i in range(0, len(filtered_points), chunk_size)]`.
Consecutive slices of size `n` (the source always calls this with `n = 50000`;
the stated properties assume `1 ≤ n`). -/
def chunksOf {α : Type*} (n : ℕ) (l : List α) : List (List α) := chunksOfF l.length n l

/-- Embeds `chunk_labels[chunk_labels != -1] += current_label`: shift every non-noise
label by the running offset, leaving the noise sentinel -1 untouched. -/
def shiftChunk (cur : ℤ) (ls : List ℤ) : List ℤ :=
  ls.map (fun l => if l = -1 then -1 else l + cur)

/-- Embeds `np.max(chunk_labels)` (over a nonempty array; -1 is the smallest value
that can occur, so folding from -1 agrees with numpy). -/
def chunkMax (ls : List ℤ) : ℤ := ls.foldl max (-1)

/-- Embeds `current_label = np.max(chunk_labels) + 1 if np.any(chunk_labels != -1) else current_label`. -/
def nextLabel (cur : ℤ) (shifted : List ℤ) : ℤ :=
  if ∃ l ∈ shifted, l ≠ -1 then chunkMax shifted + 1 else cur

/-- The message standing for the `UnboundLocalError` raised by
`del chunk, clustering, chunk_labels` in the `finally` clause of the chunk
loop when `DBSCAN(...).fit` raised and `clustering` was therefore never
bound (lines 118-122 of the source). -/
def msgChunkCrash : String := "UnboundLocalError clustering"

/-- The chunk-clustering loop, lines 104-122 of src/ui/ui/tower_extraction.py.
Input is the per-chunk DBSCAN result (`none` = the fit call raised); output
is the list of shifted per-chunk label arrays (their concatenation is
`all_labels`) together with the final running label counter.  A failing chunk
is logged by the `except` clause, but the `finally` clause then executes
`del chunk, clustering, chunk_labels` with `clustering` unbound, so the whole
call raises - the error case here. -/
def clusterChunksE : List (Option (List ℤ)) → ℤ → Except String (List (List ℤ) × ℤ)
  | [], cur => Except.ok ([], cur)
  | none :: _, _ => Except.error msgChunkCrash
  | some ls :: rest, cur =>
    let s := shiftChunk cur ls
    match clusterChunksE rest (nextLabel cur s) with
    | Except.error e => Except.error e
    | Except.ok (out, fino) => Except.ok (s :: out, fino)

/-- Embeds `unique_labels = set(all_labels) - {-1}` together with the `for label in
unique_labels` enumeration order.  The labels are the consecutive
nonnegative integers assigned by the chunk loop; for such keys CPython set
iteration is ascending value order (each int hashes to itself and the table
size always exceeds the largest label), so the enumeration is the ascending
sort of the distinct non-noise labels. -/
def uniqueLabels (ls : List ℤ) : List ℤ :=
  List.insertionSort (fun a b => a ≤ b) ((ls.filter (fun l => decide (l ≠ -1))).dedup)

/-- Python float `%` for a positive modulus: `x - m * ⌊x / m⌋`. -/
def pymod (x m : ℚ) : ℚ := x - m * (⌊x / m⌋ : ℚ)

/-- North-angle computation, lines 164-177 of src/ui/ui/tower_extraction.py.
`xAxis` is column 0 of the OBB rotation.  The source tests
`np.linalg.norm([x, y, 0]) > 1e-6`, embedded as `x^2 + y^2 > 1e-12`; in the
degenerate branch the direction is `[1, 0, 0]`, so atan2 is applied to
`(0, 1)`.  Then `degrees`, wrap negatives by +360, and `(90 - angle) % 360`. -/
def northAngle (atanD : ℚ → ℚ → ℚ) (xAxis : Pt) : ℚ :=
  let raw := if 1 / 1000000000000 < xAxis.x ^ 2 + xAxis.y ^ 2
             then atanD xAxis.y xAxis.x
             else atanD 0 1
  let a := if raw < 0 then raw + 360 else raw
  pymod (90 - a) 360

/-- The keyword parameters of `extract_towers` (defaults of
src/ui/ui/tower_extraction.py lines 25-31) plus the hard-coded
`chunk_size = 50000` of line 96.  `eps` and `min_points` are consumed only
by the DBSCAN collaborator, which is an oracle here, so they do not appear. -/
structure TowerConfig where
  aspectRatioThreshold : ℚ := 4 / 5
  minHeight : ℚ := 15
  maxWidth : ℚ := 50
  minWidth : ℚ := 8
  duplicateThreshold : ℚ := 30
  chunkSize : ℕ := 50000
deriving DecidableEq, Repr

/-- The oriented bounding box returned by `trimesh.PointCloud(...).bounding_box_oriented`:
`center` is `obb.transform[:3, 3]`, `col0`, `col1`, `col2` are the columns of
`obb.transform[:3, :3]`, `extents` is `obb.extents`. -/
structure Obb where
  center : Pt
  col0 : Pt
  col1 : Pt
  col2 : Pt
  extents : Pt
deriving DecidableEq, Repr

/-- The `tower_info` dictionary appended to `tower_obbs` (lines 180-189 of
the source): center (world coordinates), rotation columns, extents, height,
width, north angle, and the raw (centroid-relative) cluster points. -/
structure Tower where
  center : Pt
  rotation : Pt × Pt × Pt
  extent : Pt
  height : ℚ
  width : ℚ
  northAngleDeg : ℚ
  points : List Pt
deriving DecidableEq, Repr

/-- One row of `tower_info_list` (lines 193-202): ID label, longitude,
latitude, altitude (the three center coordinates), height, north angle,
width, aspect ratio. -/
structure InfoRow where
  towerId : ℤ
  lon : ℚ
  lat : ℚ
  alt : ℚ
  height : ℚ
  northAngleDeg : ℚ
  width : ℚ
  aspectRatio : ℚ
deriving DecidableEq, Repr

/-- The mutable state of the detection loop: `tower_obbs`, `tower_centers`,
`tower_info_list`, the per-tower LAS exports (label and world-coordinate
points handed to `_save_tower_las`), and the log lines. -/
structure LoopState where
  towers : List Tower
  centers : List Pt
  infos : List InfoRow
  exports : List (ℤ × List Pt)
  logs : List String
deriving DecidableEq, Repr

/-- Embeds `filtered_points[all_labels == label]`. -/
def clusterPointsOf (filtered : List Pt) (labels : List ℤ) (l : ℤ) : List Pt :=
  ((filtered.zip labels).filter (fun pl => decide (pl.2 = l))).map Prod.fst

/-- Log line standing for `⚠️ 跳过重复杆塔...`. -/
def msgDupSkip : String := "skip duplicate tower"

/-- Log line standing for `✅ 杆塔...`. -/
def msgTowerOk : String := "tower accepted"

/-- The message standing for the `UnboundLocalError` raised by
`del cluster_points, cluster_pc, obb` in the `finally` clause of the
detection loop when the OBB computation raised and `cluster_pc` or `obb`
was never bound (lines 213-218 of the source). -/
def msgObbCrash : String := "UnboundLocalError cluster pc or obb"

/-- One iteration of the detection loop, lines 131-218 of
src/ui/ui/tower_extraction.py: gather the cluster, compute its OBB, apply the
size filter (`height > min_height and min_width < width < max_width and
aspect_ratio > aspect_ratio_threshold`), the duplicate check against all
already-accepted centers (`np.linalg.norm(obb_center - existing) <
duplicate_threshold`, squared form here), the north angle, and append the
record, its center, its info row and its LAS export. -/
def processLabel (cfg : TowerConfig) (obbOf : List Pt → Option Obb) (atanD : ℚ → ℚ → ℚ)
    (centroid : Pt) (filtered : List Pt) (labels : List ℤ)
    (st : LoopState) (l : ℤ) : Except String LoopState :=
  let cpts := clusterPointsOf filtered labels l
  match obbOf cpts with
  | none => Except.error msgObbCrash
  | some obb =>
    let height := obb.extents.z
    let width := max obb.extents.x obb.extents.y
    let aspect := height / width
    if cfg.minHeight < height ∧ cfg.minWidth < width ∧ width < cfg.maxWidth ∧
        cfg.aspectRatioThreshold < aspect then
      let obbCenter := obb.center.add centroid
      if st.centers.any (fun c => decide (distSq obbCenter c < cfg.duplicateThreshold ^ 2)) then
        Except.ok { st with logs := st.logs ++ [msgDupSkip] }
      else
        Except.ok
          { towers := st.towers ++
              [⟨obbCenter, (obb.col0, obb.col1, obb.col2), obb.extents, height, width,
                northAngle atanD obb.col0, cpts⟩],
            centers := st.centers ++ [obbCenter],
            infos := st.infos ++
              [⟨l, obbCenter.x, obbCenter.y, obbCenter.z, height,
                northAngle atanD obb.col0, width, aspect⟩],
            exports := st.exports ++ [(l, cpts.map (fun p => p.add centroid))],
            logs := st.logs ++ [msgTowerOk] }
    else Except.ok st

/-- Fold a fallible step over a list, stopping at the first error (the loop
body either completes, `continue`s, or raises). -/
def foldE {σ α ε : Type*} (f : σ → α → Except ε σ) : σ → List α → Except ε σ
  | s, [] => Except.ok s
  | s, a :: as => match f s a with
    | Except.error e => Except.error e
    | Except.ok s2 => foldE f s2 as

/-- The whole detection loop: fold `processLabel` over the enumeration of
`set(all_labels) - {-1}` starting from empty accumulators. -/
def runCandidates (cfg : TowerConfig) (obbOf : List Pt → Option Obb) (atanD : ℚ → ℚ → ℚ)
    (centroid : Pt) (filtered : List Pt) (allLabels : List ℤ) : Except String LoopState :=
  foldE (processLabel cfg obbOf atanD centroid filtered allLabels)
    ⟨[], [], [], [], []⟩ (uniqueLabels allLabels)

/-- Log line standing for `⚠️ 文件读取失败`. -/
def msgReadFail : String := "file read failed"

/-- Log line standing for `⚠️ 高度过滤失败`. -/
def msgFilterFail : String := "height filter failed"

/-- Log line standing for `=== 开始聚类处理 ===`. -/
def msgClusterStart : String := "clustering started"

/-- Log line standing for `✅ 杆塔提取完成`. -/
def msgDone : String := "extraction done"

/-- The value returned (and the side effects performed) by one
`extract_towers` call: `tower_obbs`, `tower_info_list`, the per-tower LAS
exports, and the log stream. -/
structure RunResult where
  towers : List Tower
  infos : List InfoRow
  exports : List (ℤ × List Pt)
  logs : List String
deriving DecidableEq, Repr

/-- Embeds `extract_towers` of src/ui/ui/tower_extraction.py.  A failed read
(`input = none`) and a failed height filter (empty cloud) are caught by the
source and yield a normal return of the empty list plus a log line; an
exception escaping the chunk loop or the detection loop (the
`UnboundLocalError`s of the `finally` clauses) is the `Except.error` case. -/
def extractTowersE (cfg : TowerConfig) (cluster : List Pt → Option (List ℤ))
    (obbOf : List Pt → Option Obb) (atanD : ℚ → ℚ → ℚ)
    (input : Option (List Pt)) : Except String RunResult :=
  match input with
  | none => Except.ok ⟨[], [], [], [msgReadFail]⟩
  | some rawPoints =>
    let centroid := centroidOf rawPoints
    let points := rawPoints.map (fun p => p.sub centroid)
    match heightFilterE points with
    | Except.error _ => Except.ok ⟨[], [], [], [msgFilterFail]⟩
    | Except.ok (filtered, _, flogs) =>
      match clusterChunksE ((chunksOf cfg.chunkSize filtered).map cluster) 0 with
      | Except.error e => Except.error e
      | Except.ok (shifted, _) =>
        match runCandidates cfg obbOf atanD centroid filtered shifted.flatten with
        | Except.error e => Except.error e
        | Except.ok st =>
          Except.ok ⟨st.towers, st.infos, st.exports,
            flogs ++ [msgClusterStart] ++ st.logs ++ [msgDone]⟩

/-! Concrete instances used by the witnesses and counterexamples. -/

/-- Configuration of the concrete runs: source defaults except `minWidth`,
which is lowered so that the one-unit-wide example box passes the filter. -/
def cfgEx : TowerConfig :=
  { aspectRatioThreshold := 4 / 5, minHeight := 15, maxWidth := 50,
    minWidth := 1 / 2, duplicateThreshold := 30, chunkSize := 50000 }

/-- A tiny input cloud: three ground points and one elevated point.  Its
centroid is `(0, 0, 10)`; after centering, the 25th z-percentile is -10, the
first filter pass keeps one point (fewer than 1000), and the fallback pass
keeps the same single point `(0, 0, 30)`. -/
def ptsEx : List Pt := [⟨0, 0, 0⟩, ⟨0, 0, 0⟩, ⟨0, 0, 0⟩, ⟨0, 0, 40⟩]

/-- A DBSCAN oracle that labels every point of a chunk 0 (one cluster). -/
def clusterEx : List Pt → Option (List ℤ) := fun c => some (c.map (fun _ => 0))

/-- A DBSCAN oracle whose `fit` raises on every chunk. -/
def clusterFailEx : List Pt → Option (List ℤ) := fun _ => none

/-- An OBB oracle returning a 1 x 1 x 20 box with identity rotation. -/
def obbEx : List Pt → Option Obb :=
  fun _ => some ⟨⟨5, 5, 30⟩, ⟨1, 0, 0⟩, ⟨0, 1, 0⟩, ⟨0, 0, 1⟩, ⟨1, 1, 20⟩⟩

/-- An OBB oracle whose principal (column-0) axis is exactly vertical: the
degenerate case of the north-angle computation. -/
def obbEx6 : List Pt → Option Obb :=
  fun _ => some ⟨⟨5, 5, 30⟩, ⟨0, 0, 1⟩, ⟨0, 1, 0⟩, ⟨1, 0, 0⟩, ⟨1, 1, 20⟩⟩

/-- An OBB oracle that raises on every cluster. -/
def obbFailEx : List Pt → Option Obb := fun _ => none

/-- A degrees-atan2 oracle; it agrees with the real atan2 at the only point
the degenerate branch evaluates it, `atan2(0, 1) = 0`. -/
def atanEx : ℚ → ℚ → ℚ := fun _ _ => 0

/-- Extract the normal-return value of a run (the runs below all return
normally; the default is never used). -/
def extractOk : Except String RunResult → RunResult
  | Except.ok r => r
  | Except.error _ => ⟨[], [], [], []⟩

/-- The result of the concrete run with the identity-rotation OBB oracle. -/
def resEx : RunResult := extractOk (extractTowersE cfgEx clusterEx obbEx atanEx (some ptsEx))

/-- The result of the concrete run with the degenerate-axis OBB oracle. -/
def resEx6 : RunResult := extractOk (extractTowersE cfgEx clusterEx obbEx6 atanEx (some ptsEx))

/-- A throwaway default record (never the one actually inspected; the
concrete runs emit exactly one tower each). -/
def towerDefault : Tower :=
  ⟨⟨0, 0, 0⟩, (⟨0, 0, 0⟩, ⟨0, 0, 0⟩, ⟨0, 0, 0⟩), ⟨0, 0, 0⟩, 0, 0, 0, []⟩

/-- The single tower emitted by the identity-rotation concrete run. -/
def towerEx : Tower := resEx.towers.headD towerDefault

/-- The single tower emitted by the degenerate-axis concrete run. -/
def towerEx6 : Tower := resEx6.towers.headD towerDefault

/-- Decidable equality of run outcomes, so that the concrete runs below can
be checked by evaluation. -/
instance {ε α : Type*} [DecidableEq ε] [DecidableEq α] : DecidableEq (Except ε α) := fun x y =>
  match x, y with
  | Except.error a, Except.error b =>
    if h : a = b then Decidable.isTrue (by rw [h])
    else Decidable.isFalse (fun he => h (by injection he))
  | Except.error _, Except.ok _ => Decidable.isFalse (fun he => Except.noConfusion he)
  | Except.ok _, Except.error _ => Decidable.isFalse (fun he => Except.noConfusion he)
  | Except.ok a, Except.ok b =>
    if h : a = b then Decidable.isTrue (by rw [h])
    else Decidable.isFalse (fun he => h (by injection he))

/-- The cloud used to exercise the chunk loop with two chunks. -/
def ptsC2 : List Pt := [⟨0, 0, 0⟩, ⟨1, 0, 0⟩, ⟨2, 0, 0⟩]

/-- A DBSCAN oracle given as a total function (for the runs in which no fit
call raises): every point of the chunk is labelled 0. -/
def clusterConst : List Pt → List ℤ := fun c => c.map (fun _ => 0)

/-- The relation between an accepted `tower_info` record and the OBB of its
cluster: every field of the record is the corresponding expression of the
source (lines 136-189), and the record passed the size filter. -/
def TowerFromObb (cfg : TowerConfig) (obbOf : List Pt → Option Obb) (atanD : ℚ → ℚ → ℚ)
    (centroid : Pt) (filtered : List Pt) (labels : List ℤ) (t : Tower) : Prop :=
  ∃ l obb, obbOf (clusterPointsOf filtered labels l) = some obb ∧
    t.points = clusterPointsOf filtered labels l ∧
    t.center = obb.center.add centroid ∧
    t.rotation = (obb.col0, obb.col1, obb.col2) ∧
    t.extent = obb.extents ∧
    t.height = obb.extents.z ∧
    t.width = max obb.extents.x obb.extents.y ∧
    t.northAngleDeg = northAngle atanD obb.col0 ∧
    cfg.minHeight < t.height ∧ cfg.minWidth < t.width ∧ t.width < cfg.maxWidth ∧
    cfg.aspectRatioThreshold < t.height / t.width

/-- The invariant of the detection loop: every accepted record arises from
its cluster OBB, `tower_centers` tracks the accepted centers in order, any
two tracked centers are at squared distance at least the squared duplicate
threshold, each LAS export is the points of the record translated by the
centroid, and the aspect ratio of each info row is height over width. -/
structure LoopInv (cfg : TowerConfig) (obbOf : List Pt → Option Obb) (atanD : ℚ → ℚ → ℚ)
    (centroid : Pt) (filtered : List Pt) (labels : List ℤ) (st : LoopState) : Prop where
  each : ∀ t ∈ st.towers, TowerFromObb cfg obbOf atanD centroid filtered labels t
  centersEq : st.centers = st.towers.map Tower.center
  far : st.centers.Pairwise (fun a b => cfg.duplicateThreshold ^ 2 ≤ distSq a b)
  exportsEq : st.exports.map Prod.snd =
    st.towers.map (fun t => t.points.map (fun p => p.add centroid))
  infosAspect : st.infos.map InfoRow.aspectRatio =
    st.towers.map (fun t => t.height / t.width)

/-! Basic lemmas. -/

theorem distSq_comm (p q : Pt) : distSq p q = distSq q p := by
  simp only [distSq]; ring

theorem foldE_inv {σ α ε : Type*} (f : σ → α → Except ε σ) (P : σ → Prop)
    (hstep : ∀ s a s2, P s → f s a = Except.ok s2 → P s2) :
    ∀ (ls : List α) (s s2 : σ), P s → foldE f s ls = Except.ok s2 → P s2 := by
  intro ls
  induction ls with
  | nil =>
    intro s s2 hP h
    simp only [foldE, Except.ok.injEq] at h
    exact h ▸ hP
  | cons a as ih =>
    intro s s2 hP h
    simp only [foldE] at h
    cases hfa : f s a with
    | error e => rw [hfa] at h; exact Except.noConfusion h
    | ok s1 => rw [hfa] at h; exact ih s1 s2 (hstep s a s1 hP hfa) h

theorem heightFilterE_subset {points filtered : List Pt} {off : ℚ} {lgs : List String}
    (h : heightFilterE points = Except.ok (filtered, off, lgs)) :
    ∀ p ∈ filtered, p ∈ points := by
  unfold heightFilterE at h
  split at h
  · exact Except.noConfusion h
  · dsimp only at h
    split at h <;>
    · simp only [Except.ok.injEq, Prod.mk.injEq] at h
      obtain ⟨rfl, -, -⟩ := h
      exact fun p hp => (List.mem_filter.mp hp).1

theorem clusterPointsOf_subset {filtered : List Pt} {labels : List ℤ} {l : ℤ} {p : Pt}
    (h : p ∈ clusterPointsOf filtered labels l) : p ∈ filtered := by
  simp only [clusterPointsOf, List.mem_map, List.mem_filter] at h
  obtain ⟨⟨q, lbl⟩, ⟨hmem, -⟩, rfl⟩ := h
  exact (List.of_mem_zip hmem).1

/-! The chunked-clustering stage. -/

theorem le_foldl_max (ls : List ℤ) : ∀ a : ℤ, a ≤ ls.foldl max a := by
  induction ls with
  | nil => intro a; exact le_refl a
  | cons x xs ih => intro a; exact le_trans (le_max_left a x) (ih (max a x))

theorem mem_le_foldl_max {x : ℤ} : ∀ {ls : List ℤ}, x ∈ ls → ∀ a : ℤ, x ≤ ls.foldl max a := by
  intro ls
  induction ls with
  | nil => intro h; cases h
  | cons y ys ih =>
    intro h a
    rcases List.mem_cons.mp h with rfl | hmem
    · exact le_trans (le_max_right a x) (le_foldl_max ys (max a x))
    · exact ih hmem (max a y)

theorem mem_shiftChunk {cur : ℤ} {ls : List ℤ} {l : ℤ} (h : l ∈ shiftChunk cur ls) :
    ∃ l0 ∈ ls, (l0 = -1 ∧ l = -1) ∨ (l0 ≠ -1 ∧ l = l0 + cur) := by
  simp only [shiftChunk, List.mem_map] at h
  obtain ⟨l0, hl0, hEq⟩ := h
  by_cases h1 : l0 = -1
  · exact ⟨l0, hl0, Or.inl ⟨h1, by rw [← hEq, if_pos h1]⟩⟩
  · exact ⟨l0, hl0, Or.inr ⟨h1, by rw [← hEq, if_neg h1]⟩⟩

theorem shiftChunk_valid {cur : ℤ} {ls : List ℤ} (hcur : 0 ≤ cur)
    (hv : ∀ l ∈ ls, l = -1 ∨ 0 ≤ l) :
    ∀ l ∈ shiftChunk cur ls, l = -1 ∨ cur ≤ l := by
  intro l hl
  obtain ⟨l0, hl0, hcase⟩ := mem_shiftChunk hl
  rcases hcase with ⟨-, rfl⟩ | ⟨hne, rfl⟩
  · exact Or.inl rfl
  · rcases hv l0 hl0 with h | h
    · exact absurd h hne
    · exact Or.inr (by omega)

theorem le_nextLabel {cur : ℤ} {s : List ℤ} (hvalid : ∀ l ∈ s, l = -1 ∨ cur ≤ l) :
    cur ≤ nextLabel cur s := by
  unfold nextLabel
  split
  · next hex =>
    obtain ⟨l, hl, hne⟩ := hex
    have hmax : l ≤ chunkMax s := mem_le_foldl_max hl (-1)
    rcases hvalid l hl with h1 | h2
    · exact absurd h1 hne
    · omega
  · exact le_refl cur

theorem lt_nextLabel_of_mem (cur : ℤ) {s : List ℤ} {l : ℤ} (hl : l ∈ s) (hne : l ≠ -1) :
    l < nextLabel cur s := by
  unfold nextLabel
  rw [if_pos ⟨l, hl, hne⟩]
  have hmax : l ≤ chunkMax s := mem_le_foldl_max hl (-1)
  omega

theorem clusterChunksE_bounds :
    ∀ (cs : List (Option (List ℤ))) (cur : ℤ) (out : List (List ℤ)) (fino : ℤ),
      (∀ c ∈ cs, ∀ ls, c = some ls → ∀ l ∈ ls, l = -1 ∨ 0 ≤ l) →
      0 ≤ cur →
      clusterChunksE cs cur = Except.ok (out, fino) →
      cur ≤ fino ∧ ∀ c ∈ out, ∀ l ∈ c, l = -1 ∨ (cur ≤ l ∧ l < fino) := by
  intro cs
  induction cs with
  | nil =>
    intro cur out fino _ _ h
    simp only [clusterChunksE, Except.ok.injEq, Prod.mk.injEq] at h
    obtain ⟨rfl, rfl⟩ := h
    exact ⟨le_refl cur, by simp⟩
  | cons c cs ih =>
    intro cur out fino hvalid hcur h
    cases c with
    | none => exact Except.noConfusion h
    | some ls =>
      simp only [clusterChunksE] at h
      cases hrec : clusterChunksE cs (nextLabel cur (shiftChunk cur ls)) with
      | error e => rw [hrec] at h; exact Except.noConfusion h
      | ok p =>
        obtain ⟨out2, fino2⟩ := p
        rw [hrec] at h
        simp only [Except.ok.injEq, Prod.mk.injEq] at h
        obtain ⟨rfl, rfl⟩ := h
        have hsv : ∀ l ∈ shiftChunk cur ls, l = -1 ∨ cur ≤ l :=
          shiftChunk_valid hcur (hvalid (some ls) (List.mem_cons_self _ _) ls rfl)
        have hcur2 : cur ≤ nextLabel cur (shiftChunk cur ls) := le_nextLabel hsv
        have hrest := ih (nextLabel cur (shiftChunk cur ls)) out2 fino2
          (fun c hc => hvalid c (List.mem_cons_of_mem _ hc)) (by omega) hrec
        refine ⟨by omega, ?_⟩
        intro c hc l hl
        rcases List.mem_cons.mp hc with rfl | hc2
        · rcases hsv l hl with h1 | h2
          · exact Or.inl h1
          · refine Or.inr ⟨h2, ?_⟩
            have := lt_nextLabel_of_mem cur hl (by intro he; rw [he] at h2; omega)
            omega
        · rcases hrest.2 c hc2 l hl with h1 | ⟨h2, h3⟩
          · exact Or.inl h1
          · exact Or.inr ⟨by omega, h3⟩

theorem clusterChunksE_pairwise :
    ∀ (cs : List (Option (List ℤ))) (cur : ℤ) (out : List (List ℤ)) (fino : ℤ),
      (∀ c ∈ cs, ∀ ls, c = some ls → ∀ l ∈ ls, l = -1 ∨ 0 ≤ l) →
      0 ≤ cur →
      clusterChunksE cs cur = Except.ok (out, fino) →
      out.Pairwise (fun c1 c2 => ∀ l1 ∈ c1, l1 ≠ -1 → ∀ l2 ∈ c2, l2 ≠ -1 → l1 < l2) := by
  intro cs
  induction cs with
  | nil =>
    intro cur out fino _ _ h
    simp only [clusterChunksE, Except.ok.injEq, Prod.mk.injEq] at h
    obtain ⟨rfl, rfl⟩ := h
    exact List.Pairwise.nil
  | cons c cs ih =>
    intro cur out fino hvalid hcur h
    cases c with
    | none => exact Except.noConfusion h
    | some ls =>
      simp only [clusterChunksE] at h
      cases hrec : clusterChunksE cs (nextLabel cur (shiftChunk cur ls)) with
      | error e => rw [hrec] at h; exact Except.noConfusion h
      | ok p =>
        obtain ⟨out2, fino2⟩ := p
        rw [hrec] at h
        simp only [Except.ok.injEq, Prod.mk.injEq] at h
        obtain ⟨rfl, rfl⟩ := h
        have hsv : ∀ l ∈ shiftChunk cur ls, l = -1 ∨ cur ≤ l :=
          shiftChunk_valid hcur (hvalid (some ls) (List.mem_cons_self _ _) ls rfl)
        have hcur2 : cur ≤ nextLabel cur (shiftChunk cur ls) := le_nextLabel hsv
        have hrest := clusterChunksE_bounds cs (nextLabel cur (shiftChunk cur ls)) out2 fino2
          (fun c hc => hvalid c (List.mem_cons_of_mem _ hc)) (by omega) hrec
        refine List.Pairwise.cons ?_
          (ih (nextLabel cur (shiftChunk cur ls)) out2 fino2
            (fun c hc => hvalid c (List.mem_cons_of_mem _ hc)) (by omega) hrec)
        intro c2 hc2 l1 hl1 hne1 l2 hl2 hne2
        have h1 : l1 < nextLabel cur (shiftChunk cur ls) := lt_nextLabel_of_mem cur hl1 hne1
        rcases hrest.2 c2 hc2 l2 hl2 with h2 | ⟨h2, -⟩
        · exact absurd h2 hne2
        · omega

theorem clusterChunksE_noise :
    ∀ (cs : List (Option (List ℤ))) (cur : ℤ) (out : List (List ℤ)) (fino : ℤ),
      clusterChunksE cs cur = Except.ok (out, fino) →
      List.Forall₂ (fun c sc => ∀ ls, c = some ls →
        ∀ k : ℕ, ls[k]? = some (-1) → sc[k]? = some (-1)) cs out := by
  intro cs
  induction cs with
  | nil =>
    intro cur out fino h
    simp only [clusterChunksE, Except.ok.injEq, Prod.mk.injEq] at h
    obtain ⟨rfl, rfl⟩ := h
    exact List.Forall₂.nil
  | cons c cs ih =>
    intro cur out fino h
    cases c with
    | none => exact Except.noConfusion h
    | some ls =>
      simp only [clusterChunksE] at h
      cases hrec : clusterChunksE cs (nextLabel cur (shiftChunk cur ls)) with
      | error e => rw [hrec] at h; exact Except.noConfusion h
      | ok p =>
        obtain ⟨out2, fino2⟩ := p
        rw [hrec] at h
        simp only [Except.ok.injEq, Prod.mk.injEq] at h
        obtain ⟨rfl, rfl⟩ := h
        refine List.Forall₂.cons ?_ (ih _ _ _ hrec)
        intro ls2 hls2 k hk
        obtain rfl : ls = ls2 := by injection hls2
        simp only [shiftChunk, List.getElem?_map, hk, Option.map_some]
        norm_num

theorem clusterChunksE_length :
    ∀ (cs : List (Option (List ℤ))) (cur : ℤ) (out : List (List ℤ)) (fino : ℤ),
      clusterChunksE cs cur = Except.ok (out, fino) →
      List.Forall₂ (fun c sc => ∀ ls, c = some ls → (sc : List ℤ).length = ls.length) cs out := by
  intro cs
  induction cs with
  | nil =>
    intro cur out fino h
    simp only [clusterChunksE, Except.ok.injEq, Prod.mk.injEq] at h
    obtain ⟨rfl, rfl⟩ := h
    exact List.Forall₂.nil
  | cons c cs ih =>
    intro cur out fino h
    cases c with
    | none => exact Except.noConfusion h
    | some ls =>
      simp only [clusterChunksE] at h
      cases hrec : clusterChunksE cs (nextLabel cur (shiftChunk cur ls)) with
      | error e => rw [hrec] at h; exact Except.noConfusion h
      | ok p =>
        obtain ⟨out2, fino2⟩ := p
        rw [hrec] at h
        simp only [Except.ok.injEq, Prod.mk.injEq] at h
        obtain ⟨rfl, rfl⟩ := h
        refine List.Forall₂.cons ?_ (ih _ _ _ hrec)
        intro ls2 hls2
        obtain rfl : ls = ls2 := by injection hls2
        simp [shiftChunk]

theorem chunksOfF_congr {α : Type*} (n : ℕ) :
    ∀ (f1 f2 : ℕ) (l : List α), l.length ≤ f1 → l.length ≤ f2 →
      chunksOfF f1 n l = chunksOfF f2 n l := by
  intro f1
  induction f1 with
  | zero =>
    intro f2 l h1 h2
    obtain rfl : l = [] := List.length_eq_zero.mp (Nat.le_zero.mp h1)
    cases f2 <;> rfl
  | succ f1 ih =>
    intro f2 l h1 h2
    cases l with
    | nil => cases f2 <;> rfl
    | cons x xs =>
      cases f2 with
      | zero => simp at h2
      | succ f2 =>
        simp only [chunksOfF]
        rw [ih f2 (xs.drop (n - 1))
          (by simp only [List.length_drop]; simp only [List.length_cons] at h1; omega)
          (by simp only [List.length_drop]; simp only [List.length_cons] at h2; omega)]

theorem chunksOf_cons {α : Type*} (n : ℕ) (hn : 1 ≤ n) (l : List α) (hne : l ≠ []) :
    chunksOf n l = l.take n :: chunksOf n (l.drop n) := by
  cases l with
  | nil => exact absurd rfl hne
  | cons x xs =>
    obtain ⟨m, rfl⟩ : ∃ m, n = m + 1 := ⟨n - 1, by omega⟩
    show chunksOfF (xs.length + 1) (m + 1) (x :: xs) = _
    rw [chunksOfF]
    simp only [Nat.add_sub_cancel, List.drop_succ_cons]
    rw [chunksOfF_congr (m + 1) xs.length (xs.drop m).length (xs.drop m)
      (by simp [List.length_drop]) le_rfl]
    rfl

theorem chunksOf_flatten {α : Type*} (n : ℕ) (hn : 1 ≤ n) :
    ∀ (k : ℕ) (l : List α), l.length ≤ k → (chunksOf n l).flatten = l := by
  intro k
  induction k with
  | zero =>
    intro l hl
    obtain rfl : l = [] := List.length_eq_zero.mp (Nat.le_zero.mp hl)
    rfl
  | succ k ih =>
    intro l hl
    cases l with
    | nil => rfl
    | cons x xs =>
      rw [chunksOf_cons n hn _ (by simp), List.flatten_cons,
        ih ((x :: xs).drop n)
          (by simp only [List.length_drop, List.length_cons] at hl ⊢; omega)]
      exact List.take_append_drop n (x :: xs)

theorem chunksOf_flatten_eq {α : Type*} (n : ℕ) (hn : 1 ≤ n) (l : List α) :
    (chunksOf n l).flatten = l :=
  chunksOf_flatten n hn l.length l le_rfl

theorem flatten_length_of_forall₂ {α β : Type*} :
    ∀ {l1 : List (List α)} {l2 : List (List β)},
      List.Forall₂ (fun a b => b.length = a.length) l1 l2 →
      l2.flatten.length = l1.flatten.length := by
  intro l1 l2 h
  induction h with
  | nil => rfl
  | cons h1 h2 ih => simp only [List.flatten_cons, List.length_append, h1, ih]

/-! The detection-loop invariant. -/
theorem processLabel_inv {cfg : TowerConfig} {obbOf : List Pt → Option Obb}
    {atanD : ℚ → ℚ → ℚ} {centroid : Pt} {filtered : List Pt} {labels : List ℤ}
    {st st2 : LoopState} {l : ℤ}
    (hInv : LoopInv cfg obbOf atanD centroid filtered labels st)
    (hok : processLabel cfg obbOf atanD centroid filtered labels st l = Except.ok st2) :
    LoopInv cfg obbOf atanD centroid filtered labels st2 := by
  simp only [processLabel] at hok
  cases hobb : obbOf (clusterPointsOf filtered labels l) with
  | none => rw [hobb] at hok; exact Except.noConfusion hok
  | some obb =>
    rw [hobb] at hok
    dsimp only at hok
    split at hok
    next hcond =>
      split at hok
      next hdup =>
        injection hok with hok
        subst hok
        exact ⟨hInv.each, hInv.centersEq, hInv.far, hInv.exportsEq, hInv.infosAspect⟩
      next hdup =>
        injection hok with hok
        subst hok
        have hfar2 : ∀ c ∈ st.centers,
            cfg.duplicateThreshold ^ 2 ≤ distSq c (obb.center.add centroid) := by
          intro c hc
          by_contra hlt
          exact hdup (List.any_eq_true.mpr ⟨c, hc, decide_eq_true
            (by rw [distSq_comm]; exact not_le.mp hlt)⟩)
        constructor
        · intro t ht
          rcases List.mem_append.mp ht with hold | hnew
          · exact hInv.each t hold
          · obtain rfl := List.mem_singleton.mp hnew
            exact ⟨l, obb, hobb, rfl, rfl, rfl, rfl, rfl, rfl, rfl,
              hcond.1, hcond.2.1, hcond.2.2.1, hcond.2.2.2⟩
        · dsimp only
          rw [List.map_append, ← hInv.centersEq]
          rfl
        · dsimp only
          rw [List.pairwise_append]
          refine ⟨hInv.far, List.pairwise_singleton _ _, ?_⟩
          intro a ha b hb
          obtain rfl := List.mem_singleton.mp hb
          exact hfar2 a ha
        · dsimp only
          rw [List.map_append, List.map_append, hInv.exportsEq]
          rfl
        · dsimp only
          rw [List.map_append, List.map_append, hInv.infosAspect]
          rfl
    next hcond =>
      injection hok with hok
      subst hok
      exact hInv

theorem runCandidates_inv {cfg : TowerConfig} {obbOf : List Pt → Option Obb}
    {atanD : ℚ → ℚ → ℚ} {centroid : Pt} {filtered : List Pt} {allLabels : List ℤ}
    {st : LoopState}
    (hok : runCandidates cfg obbOf atanD centroid filtered allLabels = Except.ok st) :
    LoopInv cfg obbOf atanD centroid filtered allLabels st := by
  unfold runCandidates at hok
  refine foldE_inv _ (LoopInv cfg obbOf atanD centroid filtered allLabels)
    (fun s a s2 hs h => processLabel_inv hs h) _ _ _ ?_ hok
  exact ⟨fun t ht => absurd ht (List.not_mem_nil t), rfl, List.Pairwise.nil, rfl, rfl⟩

theorem extract_some_ok {cfg : TowerConfig} {cluster : List Pt → Option (List ℤ)}
    {obbOf : List Pt → Option Obb} {atanD : ℚ → ℚ → ℚ} {rawPts : List Pt} {res : RunResult}
    (hok : extractTowersE cfg cluster obbOf atanD (some rawPts) = Except.ok res) :
    ∃ filtered labels st,
      (∀ p ∈ filtered, p ∈ rawPts.map (fun q => q.sub (centroidOf rawPts))) ∧
      LoopInv cfg obbOf atanD (centroidOf rawPts) filtered labels st ∧
      res.towers = st.towers ∧ res.infos = st.infos ∧ res.exports = st.exports := by
  simp only [extractTowersE] at hok
  cases hf : heightFilterE (rawPts.map (fun p => p.sub (centroidOf rawPts))) with
  | error e =>
    rw [hf] at hok
    dsimp only at hok
    injection hok with hok
    subst hok
    refine ⟨[], [], ⟨[], [], [], [], []⟩, fun p hp => absurd hp (List.not_mem_nil p),
      ⟨fun t ht => absurd ht (List.not_mem_nil t), rfl, List.Pairwise.nil, rfl, rfl⟩,
      rfl, rfl, rfl⟩
  | ok trip =>
    obtain ⟨filtered, off, flogs⟩ := trip
    rw [hf] at hok
    dsimp only at hok
    cases hc : clusterChunksE ((chunksOf cfg.chunkSize filtered).map cluster) 0 with
    | error e =>
      rw [hc] at hok
      dsimp only at hok
      exact Except.noConfusion hok
    | ok pr =>
      obtain ⟨shifted, fino⟩ := pr
      rw [hc] at hok
      dsimp only at hok
      cases hr : runCandidates cfg obbOf atanD (centroidOf rawPts) filtered
          shifted.flatten with
      | error e =>
        rw [hr] at hok
        dsimp only at hok
        exact Except.noConfusion hok
      | ok st =>
        rw [hr] at hok
        dsimp only at hok
        injection hok with hok
        subst hok
        exact ⟨filtered, shifted.flatten, st, heightFilterE_subset hf,
          runCandidates_inv hr, rfl, rfl, rfl⟩

/-! Concrete evaluation of the example runs, used to discharge the
hypotheses of the witnesses below. -/

theorem runEx_eq : extractTowersE cfgEx clusterEx obbEx atanEx (some ptsEx) =
    Except.ok resEx := by with_unfolding_all rfl

theorem runEx6_eq : extractTowersE cfgEx clusterEx obbEx6 atanEx (some ptsEx) =
    Except.ok resEx6 := by with_unfolding_all rfl

/-! Claims. -/

/-- C1: in the list returned by `extract_towers`, the world centers of any
two records are at Euclidean distance at least `duplicate_threshold` (stated on
squared distances, equivalent for the nonnegative threshold); and whenever a
candidate that passed the size filter has its world center within
`duplicate_threshold` of an already-accepted center, the iteration returns
the state unchanged apart from the rejection log line - the candidate is
dropped and the earlier record kept. -/
theorem c1_duplicate_suppression (cfg : TowerConfig) (cluster : List Pt → Option (List ℤ))
    (obbOf : List Pt → Option Obb) (atanD : ℚ → ℚ → ℚ) (input : Option (List Pt))
    (res : RunResult) (hthr : 0 ≤ cfg.duplicateThreshold)
    (hok : extractTowersE cfg cluster obbOf atanD input = Except.ok res) :
    res.towers.Pairwise
      (fun t1 t2 => cfg.duplicateThreshold ^ 2 ≤ distSq t1.center t2.center) ∧
    ∀ (centroid : Pt) (filtered : List Pt) (labels : List ℤ) (st : LoopState)
      (l : ℤ) (obb : Obb),
      obbOf (clusterPointsOf filtered labels l) = some obb →
      (cfg.minHeight < obb.extents.z ∧
        cfg.minWidth < max obb.extents.x obb.extents.y ∧
        max obb.extents.x obb.extents.y < cfg.maxWidth ∧
        cfg.aspectRatioThreshold < obb.extents.z / max obb.extents.x obb.extents.y) →
      (∃ c ∈ st.centers,
        distSq (obb.center.add centroid) c < cfg.duplicateThreshold ^ 2) →
      processLabel cfg obbOf atanD centroid filtered labels st l =
        Except.ok { st with logs := st.logs ++ [msgDupSkip] } := by
  constructor
  · cases input with
    | none =>
      simp only [extractTowersE] at hok
      injection hok with hok
      subst hok
      exact List.Pairwise.nil
    | some rawPts =>
      obtain ⟨filtered, labels, st, -, hInv, htw, -, -⟩ := extract_some_ok hok
      rw [htw]
      have hfar := hInv.far
      rw [hInv.centersEq] at hfar
      exact List.pairwise_map.mp hfar
  · intro centroid filtered labels st l obb hobb hcond hex
    obtain ⟨c, hc, hlt⟩ := hex
    have hany : (st.centers.any fun c =>
        decide (distSq (obb.center.add centroid) c < cfg.duplicateThreshold ^ 2)) = true :=
      List.any_eq_true.mpr ⟨c, hc, decide_eq_true hlt⟩
    simp only [processLabel, hobb]
    rw [if_pos hcond, if_pos hany]

/-- C1 witness: the concrete run returns normally with the default threshold,
so its records are pairwise separated and the rejection law holds. -/
theorem c1_witness :
    resEx.towers.Pairwise
      (fun t1 t2 => cfgEx.duplicateThreshold ^ 2 ≤ distSq t1.center t2.center) ∧
    ∀ (centroid : Pt) (filtered : List Pt) (labels : List ℤ) (st : LoopState)
      (l : ℤ) (obb : Obb),
      obbEx (clusterPointsOf filtered labels l) = some obb →
      (cfgEx.minHeight < obb.extents.z ∧
        cfgEx.minWidth < max obb.extents.x obb.extents.y ∧
        max obb.extents.x obb.extents.y < cfgEx.maxWidth ∧
        cfgEx.aspectRatioThreshold <
          obb.extents.z / max obb.extents.x obb.extents.y) →
      (∃ c ∈ st.centers,
        distSq (obb.center.add centroid) c < cfgEx.duplicateThreshold ^ 2) →
      processLabel cfgEx obbEx atanEx centroid filtered labels st l =
        Except.ok { st with logs := st.logs ++ [msgDupSkip] } :=
  c1_duplicate_suppression cfgEx clusterEx obbEx atanEx (some ptsEx) resEx
    (by decide) runEx_eq

/-- C2: for any chunk size at least 1 and any per-chunk clustering whose raw
labels are -1 or nonnegative, the shifted label chunks are pairwise disjoint
on non-noise labels (two points in different chunks never share a label),
positionwise noise is preserved (-1 is never offset), and the label array is
parallel to the filtered cloud. -/
theorem c2_global_label_uniqueness (chunkSize : ℕ) (hcs : 1 ≤ chunkSize)
    (filtered : List Pt) (clusterF : List Pt → List ℤ)
    (hvalid : ∀ c : List Pt, ∀ l ∈ clusterF c, l = -1 ∨ 0 ≤ l)
    (hlen : ∀ c : List Pt, (clusterF c).length = c.length)
    (out : List (List ℤ)) (fino : ℤ)
    (hok : clusterChunksE ((chunksOf chunkSize filtered).map (fun c => some (clusterF c))) 0 =
      Except.ok (out, fino)) :
    out.Pairwise (fun c1 c2 => ∀ l1 ∈ c1, l1 ≠ -1 → ∀ l2 ∈ c2, l2 ≠ -1 → l1 ≠ l2) ∧
    List.Forall₂ (fun (c : List Pt) (sc : List ℤ) =>
      ∀ k : ℕ, (clusterF c)[k]? = some (-1) → sc[k]? = some (-1))
      (chunksOf chunkSize filtered) out ∧
    out.flatten.length = filtered.length := by
  have hv : ∀ c ∈ (chunksOf chunkSize filtered).map (fun c => some (clusterF c)),
      ∀ ls, c = some ls → ∀ l ∈ ls, l = -1 ∨ 0 ≤ l := by
    intro c hc ls hls l hl
    obtain ⟨c0, -, rfl⟩ := List.mem_map.mp hc
    obtain rfl : clusterF c0 = ls := by injection hls
    exact hvalid c0 l hl
  refine ⟨?_, ?_, ?_⟩
  · exact (clusterChunksE_pairwise _ 0 out fino hv (le_refl 0) hok).imp
      (fun h l1 hl1 hn1 l2 hl2 hn2 => ne_of_lt (h l1 hl1 hn1 l2 hl2 hn2))
  · have hn := clusterChunksE_noise _ 0 out fino hok
    rw [List.forall₂_map_left_iff] at hn
    exact hn.imp (fun c sc h k hk => h (clusterF c) rfl k hk)
  · have hl := clusterChunksE_length _ 0 out fino hok
    rw [List.forall₂_map_left_iff] at hl
    have hl2 : List.Forall₂ (fun (c : List Pt) (sc : List ℤ) => sc.length = c.length)
        (chunksOf chunkSize filtered) out :=
      hl.imp (fun c sc h => (h (clusterF c) rfl).trans (hlen c))
    rw [flatten_length_of_forall₂ hl2, chunksOf_flatten_eq chunkSize hcs filtered]

/-- C2 witness: three points in chunks of two, each chunk clustered into a
single cluster, give disjoint global labels `[[0, 0], [1]]`. -/
theorem c2_witness :
    ([[0, 0], [1]] : List (List ℤ)).Pairwise
      (fun c1 c2 => ∀ l1 ∈ c1, l1 ≠ -1 → ∀ l2 ∈ c2, l2 ≠ -1 → l1 ≠ l2) ∧
    List.Forall₂ (fun (c : List Pt) (sc : List ℤ) =>
      ∀ k : ℕ, (clusterConst c)[k]? = some (-1) → sc[k]? = some (-1))
      (chunksOf 2 ptsC2) [[0, 0], [1]] ∧
    ([[0, 0], [1]] : List (List ℤ)).flatten.length = ptsC2.length :=
  c2_global_label_uniqueness 2 (by norm_num) ptsC2 clusterConst
    (fun c l hl => by
      rcases List.mem_map.mp hl with ⟨a, -, rfl⟩
      exact Or.inr le_rfl)
    (fun c => by simp [clusterConst])
    [[0, 0], [1]] 2 (by decide)

/-- C3: every record emitted by the pipeline passed the size filter with all
three conditions strict (`height > min_height`, `min_width < width <
max_width`, `aspect_ratio > aspect_ratio_threshold`), so a cluster whose
height, width or aspect ratio exactly equals a threshold is never emitted. -/
theorem c3_strict_thresholds (cfg : TowerConfig) (cluster : List Pt → Option (List ℤ))
    (obbOf : List Pt → Option Obb) (atanD : ℚ → ℚ → ℚ) (input : Option (List Pt))
    (res : RunResult)
    (hok : extractTowersE cfg cluster obbOf atanD input = Except.ok res) :
    ∀ t ∈ res.towers,
      (cfg.minHeight < t.height ∧ cfg.minWidth < t.width ∧ t.width < cfg.maxWidth ∧
        cfg.aspectRatioThreshold < t.height / t.width) ∧
      t.height ≠ cfg.minHeight ∧ t.width ≠ cfg.minWidth ∧ t.width ≠ cfg.maxWidth ∧
      t.height / t.width ≠ cfg.aspectRatioThreshold := by
  cases input with
  | none =>
    simp only [extractTowersE] at hok
    injection hok with hok
    subst hok
    intro t ht
    exact absurd ht (List.not_mem_nil t)
  | some rawPts =>
    obtain ⟨filtered, labels, st, -, hInv, htw, -, -⟩ := extract_some_ok hok
    rw [htw]
    intro t ht
    obtain ⟨l, obb, -, -, -, -, -, -, -, -, h1, h2, h3, h4⟩ := hInv.each t ht
    exact ⟨⟨h1, h2, h3, h4⟩, ne_of_gt h1, ne_of_gt h2, ne_of_lt h3, ne_of_gt h4⟩

/-- C3 witness: the tower emitted by the concrete run satisfies the strict
inequalities. -/
theorem c3_witness :
    (cfgEx.minHeight < towerEx.height ∧ cfgEx.minWidth < towerEx.width ∧
      towerEx.width < cfgEx.maxWidth ∧
      cfgEx.aspectRatioThreshold < towerEx.height / towerEx.width) ∧
    towerEx.height ≠ cfgEx.minHeight ∧ towerEx.width ≠ cfgEx.minWidth ∧
    towerEx.width ≠ cfgEx.maxWidth ∧
    towerEx.height / towerEx.width ≠ cfgEx.aspectRatioThreshold :=
  c3_strict_thresholds cfgEx clusterEx obbEx atanEx (some ptsEx) resEx runEx_eq towerEx
    (by
      have h : resEx.towers = [towerEx] := by with_unfolding_all rfl
      rw [h]
      exact List.mem_singleton.mpr rfl)

/-- C4: evidence for the error-handling claim.  Contrary to the claim, an
exception does escape `extract_towers`: when the DBSCAN fit of one chunk raises,
the `except` clause logs, but the `finally` clause `del chunk, clustering,
chunk_labels` then raises `UnboundLocalError` (`clustering` was never
bound), and likewise `del cluster_points, cluster_pc, obb` when the OBB
computation of a cluster raises.  Both crashes propagate to the caller instead of
continuing with the remaining chunks/clusters. -/
theorem c4_exception_escapes :
    extractTowersE cfgEx clusterFailEx obbEx atanEx (some ptsEx) =
      Except.error msgChunkCrash ∧
    extractTowersE cfgEx clusterEx obbFailEx atanEx (some ptsEx) =
      Except.error msgObbCrash := by
  constructor
  · with_unfolding_all rfl
  · with_unfolding_all rfl

/-- C5: the height of each emitted record is the third OBB extent (the extent the
source identifies with the vertical axis), its width is the larger of the
first two extents, the aspect ratio of each info row is height over width, and -
when `min_width` is nonnegative, as in every configuration of the source -
an emitted width is strictly positive, so a cluster of width 0 is skipped by
the size filter rather than ever reaching the record list. -/
theorem c5_geometry_fields (cfg : TowerConfig) (cluster : List Pt → Option (List ℤ))
    (obbOf : List Pt → Option Obb) (atanD : ℚ → ℚ → ℚ) (input : Option (List Pt))
    (res : RunResult) (hminw : 0 ≤ cfg.minWidth)
    (hok : extractTowersE cfg cluster obbOf atanD input = Except.ok res) :
    (∀ t ∈ res.towers,
      t.height = t.extent.z ∧ t.width = max t.extent.x t.extent.y ∧ 0 < t.width) ∧
    res.infos.map InfoRow.aspectRatio = res.towers.map (fun t => t.height / t.width) := by
  cases input with
  | none =>
    simp only [extractTowersE] at hok
    injection hok with hok
    subst hok
    exact ⟨fun t ht => absurd ht (List.not_mem_nil t), rfl⟩
  | some rawPts =>
    obtain ⟨filtered, labels, st, -, hInv, htw, hinf, -⟩ := extract_some_ok hok
    constructor
    · rw [htw]
      intro t ht
      obtain ⟨l, obb, -, -, -, -, hext, hh, hw, -, -, h2, -, -⟩ := hInv.each t ht
      exact ⟨by rw [hh, hext], by rw [hw, hext], lt_of_le_of_lt hminw h2⟩
    · rw [hinf, htw]
      exact hInv.infosAspect

/-- C5 witness: the concrete run instantiates the geometry-field law. -/
theorem c5_witness :
    (∀ t ∈ resEx.towers,
      t.height = t.extent.z ∧ t.width = max t.extent.x t.extent.y ∧ 0 < t.width) ∧
    resEx.infos.map InfoRow.aspectRatio = resEx.towers.map (fun t => t.height / t.width) :=
  c5_geometry_fields cfgEx clusterEx obbEx atanEx (some ptsEx) resEx
    (by norm_num [cfgEx]) runEx_eq

/-- C6 (amended): when the OBB principal (column-0) axis has horizontal
projection norm at most 1e-6, the source falls back to the direction
`[1, 0, 0]`, whose raw angle is `atan2(0, 1) = 0`, and then emits
`(90 - 0) mod 360 = 90` - not 0 as the spec claims - and logs nothing about
the degeneracy. -/
theorem c6_degenerate_axis_angle (cfg : TowerConfig) (cluster : List Pt → Option (List ℤ))
    (obbOf : List Pt → Option Obb) (atanD : ℚ → ℚ → ℚ) (input : Option (List Pt))
    (res : RunResult)
    (hok : extractTowersE cfg cluster obbOf atanD input = Except.ok res)
    (hA : atanD 0 1 = 0) :
    ∀ t ∈ res.towers,
      t.rotation.1.x ^ 2 + t.rotation.1.y ^ 2 ≤ 1 / 1000000000000 →
      t.northAngleDeg = 90 := by
  cases input with
  | none =>
    simp only [extractTowersE] at hok
    injection hok with hok
    subst hok
    intro t ht
    exact absurd ht (List.not_mem_nil t)
  | some rawPts =>
    obtain ⟨filtered, labels, st, -, hInv, htw, -, -⟩ := extract_some_ok hok
    rw [htw]
    intro t ht hdeg
    obtain ⟨l, obb, -, -, -, hrot, -, -, -, hna, -, -, -, -⟩ := hInv.each t ht
    rw [hrot] at hdeg
    rw [hna]
    simp only [northAngle]
    rw [if_neg (not_lt.mpr hdeg), hA, if_neg (lt_irrefl (0 : ℚ))]
    with_unfolding_all rfl

/-- C6 counterexample to the claim as stated: a concrete run whose OBB
principal axis is exactly vertical emits north angle 90, not 0. -/
theorem c6_counterexample :
    extractTowersE cfgEx clusterEx obbEx6 atanEx (some ptsEx) = Except.ok resEx6 ∧
    resEx6.towers.map Tower.northAngleDeg = [90] ∧
    resEx6.towers.map (fun t => t.rotation.1) = [⟨0, 0, 1⟩] ∧
    ((0 : ℚ) ^ 2 + (0 : ℚ) ^ 2 ≤ 1 / 1000000000000) ∧
    resEx6.towers.map Tower.northAngleDeg ≠ [0] := by
  refine ⟨runEx6_eq, ?_, ?_, by norm_num, ?_⟩
  · with_unfolding_all rfl
  · with_unfolding_all rfl
  · intro h
    have : (90 : ℚ) = 0 := by
      have h2 : ([90] : List ℚ) = [0] := by
        rw [show ([90] : List ℚ) = resEx6.towers.map Tower.northAngleDeg from by
          with_unfolding_all rfl]
        exact h
      injection h2
    norm_num at this

/-- C6 witness for the amended claim: the tower of the degenerate concrete
run has its north angle equal to 90. -/
theorem c6_witness : towerEx6.northAngleDeg = 90 :=
  c6_degenerate_axis_angle cfgEx clusterEx obbEx6 atanEx (some ptsEx) resEx6
    runEx6_eq rfl towerEx6
    (by
      have h : resEx6.towers = [towerEx6] := by with_unfolding_all rfl
      rw [h]
      exact List.mem_singleton.mpr rfl)
    (by
      have h : towerEx6.rotation.1 = ⟨0, 0, 1⟩ := by with_unfolding_all rfl
      rw [h]
      show (0 : ℚ) ^ 2 + (0 : ℚ) ^ 2 ≤ 1 / 1000000000000
      norm_num)

/-- C7: a point retained by the height filter has `z` strictly greater than
the 25th percentile of all z values plus the offset; the offset is 3, or 1
exactly when the first pass with offset 3 kept fewer than 1000 points, in
which case the filter is re-applied to the full cloud with offset 1 and the
fallback is logged. -/
theorem c7_height_filter (points filtered : List Pt) (off : ℚ) (lgs : List String)
    (hok : heightFilterE points = Except.ok (filtered, off, lgs)) :
    (∀ p ∈ filtered, percentile25 (points.map Pt.z) + off < p.z) ∧
    ((points.filter (fun p =>
        decide (percentile25 (points.map Pt.z) + 3 < p.z))).length < 1000 ↔ off = 1) ∧
    (off = 1 →
      filtered = points.filter (fun p => decide (percentile25 (points.map Pt.z) + 1 < p.z)) ∧
      msgFilterFallback ∈ lgs) := by
  unfold heightFilterE at hok
  split at hok
  · exact Except.noConfusion hok
  · dsimp only at hok
    split at hok
    next hlt =>
      simp only [Except.ok.injEq, Prod.mk.injEq] at hok
      obtain ⟨rfl, rfl, rfl⟩ := hok
      refine ⟨?_, ⟨fun _ => rfl, fun _ => hlt⟩, fun _ => ⟨rfl, List.mem_singleton.mpr rfl⟩⟩
      intro p hp
      exact of_decide_eq_true (List.mem_filter.mp hp).2
    next hge =>
      simp only [Except.ok.injEq, Prod.mk.injEq] at hok
      obtain ⟨rfl, rfl, rfl⟩ := hok
      refine ⟨?_, ⟨fun h => absurd h hge, fun h3 => by norm_num at h3⟩,
        fun h3 => by norm_num at h3⟩
      intro p hp
      exact of_decide_eq_true (List.mem_filter.mp hp).2

/-- C7 witness: on the four-point example cloud the first pass keeps one
point, so the fallback offset 1 is used and logged. -/
theorem c7_witness :
    (∀ p ∈ [(⟨0, 0, 40⟩ : Pt)], percentile25 (ptsEx.map Pt.z) + 1 < p.z) ∧
    ((ptsEx.filter (fun p =>
        decide (percentile25 (ptsEx.map Pt.z) + 3 < p.z))).length < 1000 ↔ (1 : ℚ) = 1) ∧
    ((1 : ℚ) = 1 →
      [(⟨0, 0, 40⟩ : Pt)] =
        ptsEx.filter (fun p => decide (percentile25 (ptsEx.map Pt.z) + 1 < p.z)) ∧
      msgFilterFallback ∈ [msgFilterFallback]) :=
  c7_height_filter ptsEx [⟨0, 0, 40⟩] 1 [msgFilterFallback] (by with_unfolding_all rfl)

/-- C8: an unreadable input (the read raises, modelled by `none`) and an
empty cloud (the percentile call raises inside the height-filter stage) both
return normally with an empty record list and a fatal log line, and the
clustering stage is never reached (its start marker is absent from the
log). -/
theorem c8_empty_input (cfg : TowerConfig) (cluster : List Pt → Option (List ℤ))
    (obbOf : List Pt → Option Obb) (atanD : ℚ → ℚ → ℚ) :
    (∃ r : RunResult, extractTowersE cfg cluster obbOf atanD none = Except.ok r ∧
      r.towers = [] ∧ msgReadFail ∈ r.logs ∧ msgClusterStart ∉ r.logs) ∧
    (∃ r : RunResult, extractTowersE cfg cluster obbOf atanD (some []) = Except.ok r ∧
      r.towers = [] ∧ msgFilterFail ∈ r.logs ∧ msgClusterStart ∉ r.logs) :=
  ⟨⟨⟨[], [], [], [msgReadFail]⟩, rfl, rfl, List.mem_singleton.mpr rfl, by decide⟩,
   ⟨⟨[], [], [], [msgFilterFail]⟩, rfl, rfl, List.mem_singleton.mpr rfl, by decide⟩⟩

/-- C9: the pipeline is a pure function of the configuration, the
collaborator oracles and the input cloud, so equal inputs give equal
results; moreover the candidate enumeration `uniqueLabels` (the model of
CPython set iteration over the consecutive integer labels) is canonically
determined by the label array: it is strictly sorted, contains exactly the
non-noise labels, and any strictly sorted list with the same membership is
equal to it. -/
theorem c9_determinism (cfg : TowerConfig) (cluster : List Pt → Option (List ℤ))
    (obbOf : List Pt → Option Obb) (atanD : ℚ → ℚ → ℚ) (i1 i2 : Option (List Pt))
    (h : i1 = i2) :
    extractTowersE cfg cluster obbOf atanD i1 = extractTowersE cfg cluster obbOf atanD i2 ∧
    ∀ ls : List ℤ,
      (uniqueLabels ls).Pairwise (fun a b => a < b) ∧
      (∀ l : ℤ, l ∈ uniqueLabels ls ↔ l ∈ ls ∧ l ≠ -1) ∧
      ∀ other : List ℤ, other.Pairwise (fun a b => a < b) →
        (∀ l : ℤ, l ∈ other ↔ l ∈ ls ∧ l ≠ -1) → other = uniqueLabels ls := by
  subst h
  refine ⟨rfl, ?_⟩
  intro ls
  have hnd : (uniqueLabels ls).Nodup :=
    ((List.perm_insertionSort (fun a b => a ≤ b) _).nodup_iff).mpr (List.nodup_dedup _)
  have hsorted : (uniqueLabels ls).Pairwise (fun a b => a ≤ b) :=
    List.sorted_insertionSort (fun a b => a ≤ b) _
  have hlt : (uniqueLabels ls).Pairwise (fun a b => a < b) :=
    (List.Pairwise.and hsorted hnd).imp (fun hab => lt_of_le_of_ne hab.1 hab.2)
  have hmem : ∀ l : ℤ, l ∈ uniqueLabels ls ↔ l ∈ ls ∧ l ≠ -1 := by
    intro l
    unfold uniqueLabels
    rw [(List.perm_insertionSort (fun a b => a ≤ b) _).mem_iff, List.mem_dedup,
      List.mem_filter]
    simp only [decide_eq_true_eq]
  refine ⟨hlt, hmem, ?_⟩
  intro other hother hmemo
  haveI : IsAntisymm ℤ (fun a b => a < b) := ⟨fun a b h1 h2 => absurd h2 (lt_asymm h1)⟩
  refine List.eq_of_perm_of_sorted ?_ hother hlt
  have hndo : other.Nodup := hother.imp (fun hab => ne_of_lt hab)
  rw [List.perm_ext_iff_of_nodup hndo hnd]
  intro a
  rw [hmemo a, hmem a]

/-- C9 witness: the determinism law instantiated at the concrete run. -/
theorem c9_witness :
    extractTowersE cfgEx clusterEx obbEx atanEx (some ptsEx) =
      extractTowersE cfgEx clusterEx obbEx atanEx (some ptsEx) ∧
    ∀ ls : List ℤ,
      (uniqueLabels ls).Pairwise (fun a b => a < b) ∧
      (∀ l : ℤ, l ∈ uniqueLabels ls ↔ l ∈ ls ∧ l ≠ -1) ∧
      ∀ other : List ℤ, other.Pairwise (fun a b => a < b) →
        (∀ l : ℤ, l ∈ other ↔ l ∈ ls ∧ l ≠ -1) → other = uniqueLabels ls :=
  c9_determinism cfgEx clusterEx obbEx atanEx (some ptsEx) (some ptsEx) rfl

/-- C10: the center of each returned record is its OBB center translated back to
world coordinates by the saved centroid; its `points` field is a raw subset
of the centroid-relative cloud (the centroid is never added to it); and the
per-tower LAS exports are exactly the `points` fields translated by the
centroid, so for a nonzero centroid the returned points differ from the
exported world points by exactly the centroid. -/
theorem c10_coordinate_frames (cfg : TowerConfig) (cluster : List Pt → Option (List ℤ))
    (obbOf : List Pt → Option Obb) (atanD : ℚ → ℚ → ℚ) (rawPts : List Pt) (res : RunResult)
    (hok : extractTowersE cfg cluster obbOf atanD (some rawPts) = Except.ok res) :
    (∀ t ∈ res.towers,
      (∃ obb, obbOf t.points = some obb ∧ t.center = obb.center.add (centroidOf rawPts)) ∧
      ∀ p ∈ t.points, p ∈ rawPts.map (fun q => q.sub (centroidOf rawPts))) ∧
    res.exports.map Prod.snd =
      res.towers.map (fun t => t.points.map (fun p => p.add (centroidOf rawPts))) := by
  obtain ⟨filtered, labels, st, hsub, hInv, htw, -, hexp⟩ := extract_some_ok hok
  constructor
  · rw [htw]
    intro t ht
    obtain ⟨l, obb, hobb, hpts, hcent, -, -, -, -, -, -, -, -, -⟩ := hInv.each t ht
    refine ⟨⟨obb, ?_, hcent⟩, ?_⟩
    · rw [hpts]; exact hobb
    · intro p hp
      rw [hpts] at hp
      exact hsub p (clusterPointsOf_subset hp)
  · rw [hexp, htw]
    exact hInv.exportsEq

/-- C10 witness: the concrete run instantiates the coordinate-frame law. -/
theorem c10_witness :
    (∀ t ∈ resEx.towers,
      (∃ obb, obbEx t.points = some obb ∧ t.center = obb.center.add (centroidOf ptsEx)) ∧
      ∀ p ∈ t.points, p ∈ ptsEx.map (fun q => q.sub (centroidOf ptsEx))) ∧
    resEx.exports.map Prod.snd =
      resEx.towers.map (fun t => t.points.map (fun p => p.add (centroidOf ptsEx))) :=
  c10_coordinate_frames cfgEx clusterEx obbEx atanEx ptsEx resEx runEx_eq
